import Mathlib

/-!
Verification of the cell-level module declared in
`src/cpp/core/include/cell/cell.h` (template class `Cell<dim>`), instantiated
at `dim = 2` (the primary template instantiation; corners live at
(0,0), (1,0), (0,1), (1,1) in the cell's local [0,1]^2 coordinates, corner
index toggling the x axis fastest, matching the spec's concrete scenario
"corners [-1, 1, -1, 1]: left corners solid-negative, right corners
solid-positive").

The repository only ships the class declaration; the bodies of
`FitBoundary`, `ComputeSampleAreaAndBoundaryArea`, `ComputeEnergyMatrix` and
`ComputeDirichletVector` are absent, so those components are modelled from
the specification (spec.md sections 4.1 - 4.5) as noted in each doc comment.
The header's own comments fix the phase conventions used throughout:
  * `normal_.dot(x) + offset_ >= 0` is the solid phase (cell.h line 76);
  * `sample_areas_` holds the fluid area inside each subcell (line 84);
  * `area_ = sum of sample_areas_` (line 89), and the cell is classified
    solid / fluid / mixed from `area_` against `threshold_` (lines 71-73).
Together with the spec's degenerate-case requirement (all corner values
positive implies `area = 1`, and `[1,1,1,1]` is a fluid cell) the fitted
hyperplane approximates the negated signed distance: positive corner values
are fluid, negative ones solid.
-/

open MeasureTheory Finset

namespace DiffStokes

/-- Modelled from the spec (4.1, `FitBoundary` body absent from src):
x component of the least-squares linear fit `sdf(x, y) = g1 x + g2 y + c0`
of the four corner signed-distance values over the unit cell's corners. -/
noncomputable def g1 (d : Fin 4 → ℝ) : ℝ := (d 1 + d 3 - d 0 - d 2) / 2

/-- Modelled from the spec (4.1): y component of the least-squares fit. -/
noncomputable def g2 (d : Fin 4 → ℝ) : ℝ := (d 2 + d 3 - d 0 - d 1) / 2

/-- Modelled from the spec (4.1): intercept of the least-squares fit. -/
noncomputable def c0 (d : Fin 4 → ℝ) : ℝ := (d 0 + d 1 + d 2 + d 3) / 4 - (g1 d + g2 d) / 2

/-- Euclidean norm of the fitted gradient; zero exactly in the degenerate
configurations (all corner values equal, or an otherwise flat fit). -/
noncomputable def fitNorm (d : Fin 4 → ℝ) : ℝ := Real.sqrt (g1 d ^ 2 + g2 d ^ 2)

/-- Modelled from the spec (4.1, `FitBoundary` body absent from src): the unit
normal of the fitted boundary hyperplane.  The solid phase is
`normal . x + offset >= 0` (cell.h line 76) and positive signed distance is
fluid, so the fitted linear form is the negated least-squares fit, rescaled
to unit norm.  Degenerate fits fall back to the deterministic normal (1, 0)
(spec 4.1: a fixed, documented fallback). -/
noncomputable def FitNormal (d : Fin 4 → ℝ) : ℝ × ℝ :=
  if fitNorm d = 0 then (1, 0) else (-(g1 d) / fitNorm d, -(g2 d) / fitNorm d)

/-- Modelled from the spec (4.1): offset of the fitted hyperplane, rescaled by
the same normalization.  In the degenerate case the offset is pushed to
`2` (entirely solid, fitted constant `c0 <= 0`) or `-2` (entirely fluid,
`c0 > 0`); `|offset| = 2` puts the hyperplane strictly outside the cell, so
the whole cell lies in a single phase, deterministically. -/
noncomputable def FitOffset (d : Fin 4 → ℝ) : ℝ :=
  if fitNorm d = 0 then (if 0 ≤ -(c0 d) then 2 else -2) else -(c0 d) / fitNorm d

/-- The fluid side of the fitted hyperplane, the complement of the solid phase
`normal . x + offset >= 0` (cell.h lines 76 and 84). -/
noncomputable def fluidSet (d : Fin 4 → ℝ) : Set (ℝ × ℝ) :=
  {p | (FitNormal d).1 * p.1 + (FitNormal d).2 * p.2 + FitOffset d ≤ 0}

/-- The solid phase `normal . x + offset >= 0` of cell.h line 76. -/
noncomputable def solidSet (d : Fin 4 → ℝ) : Set (ℝ × ℝ) :=
  {p | 0 ≤ (FitNormal d).1 * p.1 + (FitNormal d).2 * p.2 + FitOffset d}

/-- The fitted boundary hyperplane itself. -/
noncomputable def boundarySet (d : Fin 4 → ℝ) : Set (ℝ × ℝ) :=
  {p | (FitNormal d).1 * p.1 + (FitNormal d).2 * p.2 + FitOffset d = 0}

/-- Sub-cell `(i, j)` of the regular `n x n` subdivision of the unit cell
(cell.h line 80: each edge is divided into `edge_sample_num_` bins). -/
def subCell (n i j : ℕ) : Set (ℝ × ℝ) :=
  Set.Ico ((i : ℝ) / n) (((i : ℝ) + 1) / n) ×ˢ Set.Ico ((j : ℝ) / n) (((j : ℝ) + 1) / n)

/-- The cell's local coordinate domain, lower left (0,0), upper right (1,1). -/
def unitBox : Set (ℝ × ℝ) := Set.Ico (0 : ℝ) 1 ×ˢ Set.Ico (0 : ℝ) 1

/-- Modelled from the spec (4.2, `ComputeSampleAreaAndBoundaryArea` body absent
from src): the fluid area inside sub-cell `(i, j)` (cell.h line 84). -/
noncomputable def sampleAreaIdx (n : ℕ) (d : Fin 4 → ℝ) (i j : ℕ) : ℝ :=
  (volume (subCell n i j ∩ fluidSet d)).toReal

/-- Modelled from the spec (4.2): the length of the fitted boundary inside
sub-cell `(i, j)` (cell.h line 86), as one-dimensional Hausdorff measure. -/
noncomputable def sampleBoundaryAreaIdx (n : ℕ) (d : Fin 4 → ℝ) (i j : ℕ) : ℝ :=
  (Measure.hausdorffMeasure 1 (subCell n i j ∩ boundarySet d)).toReal

/-- Flat-index sample area: flat index `s` decodes to the multi-index
`(s / n, s % n)` (row-major flattening, x index first). -/
noncomputable def sampleAreaFlat (n : ℕ) (d : Fin 4 → ℝ) (s : ℕ) : ℝ :=
  sampleAreaIdx n d (s / n) (s % n)

/-- Flat-index sample boundary area. -/
noncomputable def sampleBoundaryAreaFlat (n : ℕ) (d : Fin 4 → ℝ) (s : ℕ) : ℝ :=
  sampleBoundaryAreaIdx n d (s / n) (s % n)

/-- `area_ = sum of sample_areas_` (cell.h line 89). -/
noncomputable def totalArea (n : ℕ) (d : Fin 4 → ℝ) : ℝ :=
  ∑ i : Fin n, ∑ j : Fin n, sampleAreaIdx n d i j

/-- Total boundary measure, the sum of the per-sub-cell boundary areas. -/
noncomputable def totalBoundaryArea (n : ℕ) (d : Fin 4 → ℝ) : ℝ :=
  ∑ i : Fin n, ∑ j : Fin n, sampleBoundaryAreaIdx n d i j

/-- The cell's state after `Initialize` (cell.h lines 62-118): material
parameters, classification threshold, subdivision count and the corner
signed-distance inputs; every accessor below is a pure function of these,
matching the header's eagerly cached fields. -/
structure Cell where
  E : ℝ
  nu : ℝ
  la : ℝ
  mu : ℝ
  threshold : ℝ
  edge_sample_num : ℕ
  sdf : Fin 4 → ℝ

/-- Builds the initialized cell: derives the Lame parameters `la`, `mu` from
`E`, `nu` (spec 4.5) and records the remaining parameters. -/
noncomputable def mkCell (E nu threshold : ℝ) (edge_sample_num : ℕ)
    (sdf : Fin 4 → ℝ) : Cell :=
  ⟨E, nu, E * nu / ((1 + nu) * (1 - 2 * nu)), E / (2 * (1 + nu)),
    threshold, edge_sample_num, sdf⟩

namespace Cell

/-- Accessor `normal()` (cell.h line 17). -/
noncomputable def normal (c : Cell) : ℝ × ℝ := FitNormal c.sdf

/-- Accessor `offset()` (cell.h line 18). -/
noncomputable def offset (c : Cell) : ℝ := FitOffset c.sdf

/-- Flat-index overload `sample_area(int)` (cell.h line 19). -/
noncomputable def sample_area (c : Cell) (s : ℕ) : ℝ :=
  sampleAreaFlat c.edge_sample_num c.sdf s

/-- Multi-index overload `sample_area(std::array)` (cell.h line 20). -/
noncomputable def sample_area_multi (c : Cell) (i j : ℕ) : ℝ :=
  sampleAreaIdx c.edge_sample_num c.sdf i j

/-- Flat-index overload `sample_boundary_area(int)` (cell.h line 22). -/
noncomputable def sample_boundary_area (c : Cell) (s : ℕ) : ℝ :=
  sampleBoundaryAreaFlat c.edge_sample_num c.sdf s

/-- Multi-index overload `sample_boundary_area(std::array)` (cell.h line 23). -/
noncomputable def sample_boundary_area_multi (c : Cell) (i j : ℕ) : ℝ :=
  sampleBoundaryAreaIdx c.edge_sample_num c.sdf i j

/-- Accessor `area()` (cell.h line 25). -/
noncomputable def area (c : Cell) : ℝ := totalArea c.edge_sample_num c.sdf

/-- Total boundary measure of the cell. -/
noncomputable def total_boundary_area (c : Cell) : ℝ :=
  totalBoundaryArea c.edge_sample_num c.sdf

/-- `IsSolidCell` (cell.h line 37): `area_ <= threshold_`. -/
noncomputable def IsSolidCell (c : Cell) : Prop := c.area ≤ c.threshold

/-- `IsFluidCell` (cell.h line 38): `area_ >= 1 - threshold_`. -/
noncomputable def IsFluidCell (c : Cell) : Prop := 1 - c.threshold ≤ c.area

/-- `IsMixedCell` (cell.h line 39): neither solid nor fluid. -/
noncomputable def IsMixedCell (c : Cell) : Prop := ¬c.IsSolidCell ∧ ¬c.IsFluidCell

end Cell

/-- Error taxonomy of spec section 7 relevant to `Initialize`. -/
inductive InitError where
  | invalidArgument
deriving DecidableEq

/-- Conversion of the validated corner list into the corner-indexed field. -/
def listToSdf (l : List ℝ) : Fin 4 → ℝ := fun k => l.getD k.val 0

/-- Modelled from the spec (4.5, `Initialize` body absent from src):
validates that `sdf_at_corners` has exactly `2^dim = 4` entries and that
`edge_sample_num` is positive (spec section 7), failing with
`InvalidArgument` otherwise, then builds the fully initialized cell. -/
noncomputable def Initialize (E nu threshold : ℝ) (edge_sample_num : ℤ)
    (sdf_at_corners : List ℝ) : Except InitError Cell :=
  if sdf_at_corners.length ≠ 4 then .error .invalidArgument
  else if edge_sample_num < 1 then .error .invalidArgument
  else .ok (mkCell E nu threshold edge_sample_num.toNat (listToSdf sdf_at_corners))

lemma g1_const (v : ℝ) : g1 (fun _ => v) = 0 := by simp [g1]

lemma g2_const (v : ℝ) : g2 (fun _ => v) = 0 := by simp [g2]

lemma fitNorm_const (v : ℝ) : fitNorm (fun _ => v) = 0 := by
  simp [fitNorm, g1_const, g2_const]

lemma c0_const (v : ℝ) : c0 (fun _ => v) = v := by
  simp [c0, g1_const, g2_const]
  ring

lemma volume_subCell (n i j : ℕ) :
    volume (subCell n i j) = ENNReal.ofReal (1 / n) * ENNReal.ofReal (1 / n) := by
  have hx : ((i : ℝ) + 1) / n - (i : ℝ) / n = 1 / n := by ring
  have hy : ((j : ℝ) + 1) / n - (j : ℝ) / n = 1 / n := by ring
  rw [subCell, Measure.volume_eq_prod, Measure.prod_prod, Real.volume_Ico,
    Real.volume_Ico, hx, hy]

lemma volume_subCell_inter_ne_top (n i j : ℕ) (s : Set (ℝ × ℝ)) :
    volume (subCell n i j ∩ s) ≠ ⊤ := by
  have h1 : volume (subCell n i j ∩ s) ≤ volume (subCell n i j) :=
    measure_mono Set.inter_subset_left
  have h2 : volume (subCell n i j) < ⊤ := by
    rw [volume_subCell]
    exact ENNReal.mul_lt_top ENNReal.ofReal_lt_top ENNReal.ofReal_lt_top
  exact (lt_of_le_of_lt h1 h2).ne

lemma sampleAreaIdx_nonneg (n : ℕ) (d : Fin 4 → ℝ) (i j : ℕ) :
    0 ≤ sampleAreaIdx n d i j := ENNReal.toReal_nonneg

lemma sampleAreaIdx_le_subvol (n : ℕ) (d : Fin 4 → ℝ) (i j : ℕ) :
    sampleAreaIdx n d i j ≤ 1 / n * (1 / n) := by
  have hle : volume (subCell n i j ∩ fluidSet d) ≤ volume (subCell n i j) :=
    measure_mono Set.inter_subset_left
  have := ENNReal.toReal_mono (by
    rw [volume_subCell]
    exact ENNReal.mul_ne_top ENNReal.ofReal_ne_top ENNReal.ofReal_ne_top) hle
  calc sampleAreaIdx n d i j ≤ (volume (subCell n i j)).toReal := this
    _ = 1 / n * (1 / n) := by
        rw [volume_subCell, ← ENNReal.ofReal_mul (by positivity),
          ENNReal.toReal_ofReal (by positivity)]

lemma subCell_subset_unitBox {n : ℕ} (i j : Fin n) :
    subCell n i.val j.val ⊆ unitBox := by
  have hni : 0 < n := by have := i.isLt; omega
  have hn : 0 < (n : ℝ) := by exact_mod_cast hni
  rintro ⟨x, y⟩ ⟨⟨hx1, hx2⟩, hy1, hy2⟩
  have hi : ((i.val : ℝ) + 1) / n ≤ 1 := by
    rw [div_le_one hn]
    have : (i.val : ℝ) + 1 ≤ n := by exact_mod_cast i.isLt
    linarith
  have hj : ((j.val : ℝ) + 1) / n ≤ 1 := by
    rw [div_le_one hn]
    have : (j.val : ℝ) + 1 ≤ n := by exact_mod_cast j.isLt
    linarith
  have hx0 : (0 : ℝ) ≤ x := le_trans (by positivity) hx1
  have hy0 : (0 : ℝ) ≤ y := le_trans (by positivity) hy1
  exact ⟨⟨hx0, lt_of_lt_of_le hx2 hi⟩, hy0, lt_of_lt_of_le hy2 hj⟩

lemma sum_const_subvol (n : ℕ) (hn : 1 ≤ n) :
    ∑ _i : Fin n, ∑ _j : Fin n, (1 / n * (1 / n) : ℝ) = 1 := by
  have hne : (n : ℝ) ≠ 0 := by
    have : (0 : ℝ) < n := by exact_mod_cast hn
    linarith
  simp only [Finset.sum_const, Finset.card_univ, Fintype.card_fin, nsmul_eq_mul]
  field_simp

/-- C2: for every material parameters, every `edge_sample_num >= 1`, and all
corner signed-distance values equal: if the common value is positive then
after `Initialize` the cell has `area() = 1` and total boundary measure
exactly `0`; if it is negative then `area() = 0`. -/
theorem C2_degenerate_constant_corners (E nu t : ℝ) (n : ℕ) (v : ℝ) (hn : 1 ≤ n) :
    (0 < v → (mkCell E nu t n (fun _ => v)).area = 1 ∧
      (mkCell E nu t n (fun _ => v)).total_boundary_area = 0) ∧
    (v < 0 → (mkCell E nu t n (fun _ => v)).area = 0) := by
  have hnorm : FitNormal (fun _ => v) = (1, 0) := by
    rw [FitNormal, if_pos (fitNorm_const v)]
  constructor
  · intro hv
    have hoff : FitOffset (fun _ => v) = -2 := by
      rw [FitOffset, if_pos (fitNorm_const v), if_neg]
      rw [c0_const]
      linarith
    have hfluid : ∀ i j : Fin n,
        subCell n i.val j.val ∩ fluidSet (fun _ => v) = subCell n i.val j.val := by
      intro i j
      refine Set.inter_eq_left.mpr ?_
      intro p hp
      have hbox := subCell_subset_unitBox i j hp
      have hx : p.1 < 1 := hbox.1.2
      show (FitNormal fun _ => v).1 * p.1 + (FitNormal fun _ => v).2 * p.2 +
        FitOffset (fun _ => v) ≤ 0
      rw [hnorm, hoff]
      dsimp only
      linarith
    have hbdry : ∀ i j : Fin n,
        subCell n i.val j.val ∩ boundarySet (fun _ => v) = ∅ := by
      intro i j
      ext p
      simp only [Set.mem_inter_iff, Set.mem_empty_iff_false, iff_false, not_and]
      intro hp hb
      have hbox := subCell_subset_unitBox i j hp
      have hx : p.1 < 1 := hbox.1.2
      have : (FitNormal fun _ => v).1 * p.1 + (FitNormal fun _ => v).2 * p.2 +
          FitOffset (fun _ => v) = 0 := hb
      rw [hnorm, hoff] at this
      dsimp only at this
      linarith
    constructor
    · show totalArea n (fun _ => v) = 1
      unfold totalArea
      have : ∀ i j : Fin n,
          sampleAreaIdx n (fun _ => v) i.val j.val = 1 / n * (1 / n) := by
        intro i j
        unfold sampleAreaIdx
        rw [hfluid i j, volume_subCell, ← ENNReal.ofReal_mul (by positivity),
          ENNReal.toReal_ofReal (by positivity)]
      calc ∑ i : Fin n, ∑ j : Fin n, sampleAreaIdx n (fun _ => v) i.val j.val
          = ∑ _i : Fin n, ∑ _j : Fin n, (1 / n * (1 / n) : ℝ) := by
            refine Finset.sum_congr rfl fun i _ => Finset.sum_congr rfl fun j _ => this i j
        _ = 1 := sum_const_subvol n hn
    · show totalBoundaryArea n (fun _ => v) = 0
      unfold totalBoundaryArea
      refine Finset.sum_eq_zero fun i _ => Finset.sum_eq_zero fun j _ => ?_
      unfold sampleBoundaryAreaIdx
      rw [hbdry i j, measure_empty, ENNReal.zero_toReal]
  · intro hv
    have hoff : FitOffset (fun _ => v) = 2 := by
      rw [FitOffset, if_pos (fitNorm_const v), if_pos]
      rw [c0_const]
      linarith
    show totalArea n (fun _ => v) = 0
    unfold totalArea
    refine Finset.sum_eq_zero fun i _ => Finset.sum_eq_zero fun j _ => ?_
    unfold sampleAreaIdx
    have hempty : subCell n i.val j.val ∩ fluidSet (fun _ => v) = ∅ := by
      ext p
      simp only [Set.mem_inter_iff, Set.mem_empty_iff_false, iff_false, not_and]
      intro hp hf
      have hbox := subCell_subset_unitBox i j hp
      have hx : 0 ≤ p.1 := hbox.1.1
      have : (FitNormal fun _ => v).1 * p.1 + (FitNormal fun _ => v).2 * p.2 +
          FitOffset (fun _ => v) ≤ 0 := hf
      rw [hnorm, hoff] at this
      dsimp only at this
      linarith
    rw [hempty, measure_empty, ENNReal.zero_toReal]

/-- Witness for C2 at a concrete degenerate input. -/
theorem C2_degenerate_constant_corners_witness :
    (1 : ℕ) ≤ 1 ∧ ((mkCell 1 (1 / 3) (1 / 10) 1 (fun _ => (1 : ℝ))).area = 1 ∧
      (mkCell 1 (1 / 3) (1 / 10) 1 (fun _ => (1 : ℝ))).total_boundary_area = 0) :=
  ⟨le_refl 1,
    (C2_degenerate_constant_corners 1 (1 / 3) (1 / 10) 1 1 (le_refl 1)).1 (by norm_num)⟩

lemma flatten_div (n i j : ℕ) (_hi : i < n) (hj : j < n) : (i * n + j) / n = i := by
  have hn : 0 < n := by omega
  rw [mul_comm, Nat.mul_add_div hn, Nat.div_eq_of_lt hj, Nat.add_zero]

lemma flatten_mod (n i j : ℕ) (hj : j < n) : (i * n + j) % n = j := by
  rw [mul_comm, Nat.mul_add_mod, Nat.mod_eq_of_lt hj]

/-- The row-major bijection between multi-indices and flat sample indices. -/
def flatEquiv (n : ℕ) : Fin n × Fin n ≃ Fin (n * n) where
  toFun p := ⟨p.1.val * n + p.2.val, by
    have h1 := p.1.isLt
    have h2 := p.2.isLt
    have hstep : p.1.val * n + p.2.val < (p.1.val + 1) * n := by
      rw [add_mul, one_mul]
      omega
    exact lt_of_lt_of_le hstep (Nat.mul_le_mul_right n h1)⟩
  invFun s := (⟨s.val / n, Nat.div_lt_of_lt_mul s.isLt⟩,
    ⟨s.val % n, by
      have hs := s.isLt
      have hn : 0 < n := by
        rcases Nat.eq_zero_or_pos n with h | h
        · subst h; simp at hs
        · exact h
      exact Nat.mod_lt _ hn⟩)
  left_inv p := by
    have h1 := p.1.isLt
    have h2 := p.2.isLt
    have hd : (p.1.val * n + p.2.val) / n = p.1.val := flatten_div n p.1.val p.2.val h1 h2
    have hm : (p.1.val * n + p.2.val) % n = p.2.val := flatten_mod n p.1.val p.2.val h2
    exact Prod.ext (Fin.ext hd) (Fin.ext hm)
  right_inv s := by
    have h : s.val / n * n + s.val % n = s.val := by
      rw [mul_comm]
      exact Nat.div_add_mod s.val n
    exact Fin.ext h

lemma totalArea_eq_flat_sum (n : ℕ) (d : Fin 4 → ℝ) :
    totalArea n d = ∑ s : Fin (n * n), sampleAreaFlat n d s.val := by
  unfold totalArea
  rw [← Fintype.sum_prod_type']
  refine Fintype.sum_equiv (flatEquiv n)
    (fun p => sampleAreaIdx n d p.1.val p.2.val)
    (fun s => sampleAreaFlat n d s.val) fun p => ?_
  have h1 := p.1.isLt
  have h2 := p.2.isLt
  show sampleAreaIdx n d p.1.val p.2.val = sampleAreaFlat n d (p.1.val * n + p.2.val)
  unfold sampleAreaFlat
  rw [flatten_div n p.1.val p.2.val h1 h2, flatten_mod n p.1.val p.2.val h2]

/-- C4: for every initialized cell, `area()` equals the sum of all
`edge_sample_num ^ dim` per-sample areas, each per-sample area lies in
`[0, sub-cell volume]`, and `area()` lies in `[0, 1]`. -/
theorem C4_area_invariants (c : Cell) :
    c.area = ∑ s : Fin (c.edge_sample_num * c.edge_sample_num), c.sample_area s.val ∧
    (∀ s : ℕ, 0 ≤ c.sample_area s ∧
      c.sample_area s ≤ 1 / c.edge_sample_num * (1 / c.edge_sample_num)) ∧
    0 ≤ c.area ∧ c.area ≤ 1 := by
  refine ⟨totalArea_eq_flat_sum c.edge_sample_num c.sdf, ?_, ?_, ?_⟩
  · intro s
    exact ⟨ENNReal.toReal_nonneg,
      sampleAreaIdx_le_subvol c.edge_sample_num c.sdf _ _⟩
  · show (0 : ℝ) ≤ totalArea c.edge_sample_num c.sdf
    unfold totalArea
    refine Finset.sum_nonneg fun i _ => Finset.sum_nonneg fun j _ => ?_
    exact sampleAreaIdx_nonneg c.edge_sample_num c.sdf i.val j.val
  · show totalArea c.edge_sample_num c.sdf ≤ 1
    rcases Nat.eq_zero_or_pos c.edge_sample_num with h | h
    · unfold totalArea
      rw [h]
      simp
    · calc totalArea c.edge_sample_num c.sdf
          ≤ ∑ _i : Fin c.edge_sample_num, ∑ _j : Fin c.edge_sample_num,
            (1 / c.edge_sample_num * (1 / c.edge_sample_num) : ℝ) := by
            refine Finset.sum_le_sum fun i _ => Finset.sum_le_sum fun j _ => ?_
            exact sampleAreaIdx_le_subvol c.edge_sample_num c.sdf i.val j.val
        _ = 1 := sum_const_subvol c.edge_sample_num h

/-- C10: for every initialized cell and every valid two-dimensional sub-cell
multi-index, the multi-index overloads of `sample_area` and
`sample_boundary_area` agree with the flat-index overloads at the
corresponding flattened (row-major) index. -/
theorem C10_flat_vs_multi_index (c : Cell) (i j : ℕ)
    (hi : i < c.edge_sample_num) (hj : j < c.edge_sample_num) :
    c.sample_area_multi i j = c.sample_area (i * c.edge_sample_num + j) ∧
    c.sample_boundary_area_multi i j =
      c.sample_boundary_area (i * c.edge_sample_num + j) := by
  unfold Cell.sample_area_multi Cell.sample_area Cell.sample_boundary_area_multi
    Cell.sample_boundary_area sampleAreaFlat sampleBoundaryAreaFlat
  rw [flatten_div _ _ _ hi hj, flatten_mod _ _ _ hj]
  exact ⟨rfl, rfl⟩

/-- Witness for C10 at a concrete initialized cell and sub-cell index. -/
theorem C10_flat_vs_multi_index_witness :
    0 < (mkCell 1 (1 / 3) (1 / 10) 1 (fun _ => (1 : ℝ))).edge_sample_num ∧
    ((mkCell 1 (1 / 3) (1 / 10) 1 (fun _ => (1 : ℝ))).sample_area_multi 0 0 =
      (mkCell 1 (1 / 3) (1 / 10) 1 (fun _ => (1 : ℝ))).sample_area
        (0 * (mkCell 1 (1 / 3) (1 / 10) 1 (fun _ => (1 : ℝ))).edge_sample_num + 0) ∧
    (mkCell 1 (1 / 3) (1 / 10) 1 (fun _ => (1 : ℝ))).sample_boundary_area_multi 0 0 =
      (mkCell 1 (1 / 3) (1 / 10) 1 (fun _ => (1 : ℝ))).sample_boundary_area
        (0 * (mkCell 1 (1 / 3) (1 / 10) 1 (fun _ => (1 : ℝ))).edge_sample_num + 0)) :=
  ⟨by norm_num [mkCell],
    C10_flat_vs_multi_index (mkCell 1 (1 / 3) (1 / 10) 1 (fun _ => (1 : ℝ))) 0 0
      (by norm_num [mkCell]) (by norm_num [mkCell])⟩

lemma unique_bin {n i i' : ℕ} {x : ℝ} (hn : 0 < (n : ℝ))
    (h1 : (i : ℝ) / n ≤ x) (h2 : x < ((i : ℝ) + 1) / n)
    (h1' : (i' : ℝ) / n ≤ x) (h2' : x < ((i' : ℝ) + 1) / n) : i = i' := by
  by_contra hne
  rcases Nat.lt_or_ge i i' with hlt | hge
  · have hc : (i : ℝ) + 1 ≤ (i' : ℝ) := by exact_mod_cast hlt
    have hchain : ((i : ℝ) + 1) / n ≤ (i' : ℝ) / n := (div_le_div_right hn).mpr hc
    linarith
  · have hlt' : i' < i := by omega
    have hc : (i' : ℝ) + 1 ≤ (i : ℝ) := by exact_mod_cast hlt'
    have hchain : ((i' : ℝ) + 1) / n ≤ (i : ℝ) / n := (div_le_div_right hn).mpr hc
    linarith

lemma unitBox_subset_iUnion (n : ℕ) (hn : 1 ≤ n) :
    unitBox ⊆ ⋃ p : Fin n × Fin n, subCell n p.1.val p.2.val := by
  rintro ⟨x, y⟩ ⟨⟨hx0, hx1⟩, hy0, hy1⟩
  have hnR : (0 : ℝ) < n := by exact_mod_cast hn
  have hxn : 0 ≤ x * n := by positivity
  have hyn : 0 ≤ y * n := by positivity
  have hxlt : Nat.floor (x * n) < n := by
    rw [Nat.floor_lt hxn]
    calc x * n < 1 * n := by exact mul_lt_mul_of_pos_right hx1 hnR
      _ = n := one_mul _
  have hylt : Nat.floor (y * n) < n := by
    rw [Nat.floor_lt hyn]
    calc y * n < 1 * n := by exact mul_lt_mul_of_pos_right hy1 hnR
      _ = n := one_mul _
  refine Set.mem_iUnion.mpr ⟨(⟨Nat.floor (x * n), hxlt⟩, ⟨Nat.floor (y * n), hylt⟩),
    ⟨⟨?_, ?_⟩, ?_, ?_⟩⟩
  · rw [div_le_iff hnR]
    exact Nat.floor_le hxn
  · rw [lt_div_iff hnR]
    exact Nat.lt_floor_add_one (x * n)
  · rw [div_le_iff hnR]
    exact Nat.floor_le hyn
  · rw [lt_div_iff hnR]
    exact Nat.lt_floor_add_one (y * n)

lemma fluidSet_measurable (d : Fin 4 → ℝ) : MeasurableSet (fluidSet d) := by
  have h : Measurable fun p : ℝ × ℝ =>
      (FitNormal d).1 * p.1 + (FitNormal d).2 * p.2 + FitOffset d :=
    ((measurable_fst.const_mul _).add (measurable_snd.const_mul _)).add_const _
  exact measurableSet_le h measurable_const

lemma subCell_measurable (n i j : ℕ) : MeasurableSet (subCell n i j) :=
  measurableSet_Ico.prod measurableSet_Ico

lemma volume_box_inter (n : ℕ) (hn : 1 ≤ n) (S : Set (ℝ × ℝ))
    (hS : MeasurableSet S) :
    volume (unitBox ∩ S) =
      ∑ i : Fin n, ∑ j : Fin n, volume (subCell n i.val j.val ∩ S) := by
  have hnR : (0 : ℝ) < n := by exact_mod_cast hn
  have hcover : unitBox ∩ S =
      ⋃ p ∈ (Finset.univ : Finset (Fin n × Fin n)), subCell n p.1.val p.2.val ∩ S := by
    ext q
    constructor
    · rintro ⟨hbox, hq⟩
      obtain ⟨p, hp⟩ := Set.mem_iUnion.mp (unitBox_subset_iUnion n hn hbox)
      exact Set.mem_iUnion₂.mpr ⟨p, Finset.mem_univ p, hp, hq⟩
    · intro hq
      obtain ⟨p, _, hp, hq'⟩ := Set.mem_iUnion₂.mp hq
      exact ⟨subCell_subset_unitBox p.1 p.2 hp, hq'⟩
  rw [hcover, measure_biUnion_finset ?_ ?_]
  · rw [← Fintype.sum_prod_type']
  · intro p _ q _ hne
    simp only [Function.onFun]
    rw [Set.disjoint_left]
    rintro a ⟨⟨⟨ha1, ha2⟩, ha3, ha4⟩, _⟩ ⟨⟨⟨hb1, hb2⟩, hb3, hb4⟩, _⟩
    refine hne ?_
    have h1 : p.1.val = q.1.val := unique_bin hnR ha1 ha2 hb1 hb2
    have h2 : p.2.val = q.2.val := unique_bin hnR ha3 ha4 hb3 hb4
    exact Prod.ext (Fin.ext h1) (Fin.ext h2)
  · intro p _
    exact (subCell_measurable n p.1.val p.2.val).inter hS

lemma totalArea_eq_box (n : ℕ) (hn : 1 ≤ n) (d : Fin 4 → ℝ) :
    totalArea n d = (volume (unitBox ∩ fluidSet d)).toReal := by
  rw [volume_box_inter n hn (fluidSet d) (fluidSet_measurable d)]
  rw [ENNReal.toReal_sum fun i _ => ENNReal.sum_ne_top.mpr
    fun j _ => volume_subCell_inter_ne_top n i.val j.val (fluidSet d)]
  unfold totalArea
  refine Finset.sum_congr rfl fun i _ => ?_
  rw [ENNReal.toReal_sum fun j _ => volume_subCell_inter_ne_top n i.val j.val (fluidSet d)]
  rfl

lemma FitNormal_const (v : ℝ) : FitNormal (fun _ => v) = (1, 0) := by
  rw [FitNormal, if_pos (fitNorm_const v)]

lemma FitOffset_const_pos (v : ℝ) (hv : 0 < v) : FitOffset (fun _ => v) = -2 := by
  rw [FitOffset, if_pos (fitNorm_const v), if_neg]
  rw [c0_const]
  linarith

/-- C1 is corrected: at the all-fluid input (all corner values `1`, so the
whole cell is fluid and the sample area is the full sub-cell volume `1`),
the sample area differs from the volume of the sub-cell lying on the solid
side `normal . x + offset >= 0` of the fitted hyperplane, which is `0`. -/
theorem C1_counterexample :
    (mkCell 1 (1 / 3) (1 / 10) 1 (fun _ => (1 : ℝ))).sample_area_multi 0 0 ≠
      (volume (subCell 1 0 0 ∩ solidSet (fun _ => (1 : ℝ)))).toReal := by
  have h0 : (0 : ℕ) < 1 := Nat.one_pos
  have hfluid : subCell 1 0 0 ∩ fluidSet (fun _ => (1 : ℝ)) = subCell 1 0 0 := by
    refine Set.inter_eq_left.mpr ?_
    intro p hp
    have hbox := subCell_subset_unitBox (⟨0, h0⟩ : Fin 1) (⟨0, h0⟩ : Fin 1) hp
    have hx : p.1 < 1 := hbox.1.2
    show (FitNormal fun _ => (1 : ℝ)).1 * p.1 + (FitNormal fun _ => (1 : ℝ)).2 * p.2 +
      FitOffset (fun _ => (1 : ℝ)) ≤ 0
    rw [FitNormal_const, FitOffset_const_pos 1 one_pos]
    dsimp only
    linarith
  have hsolid : subCell 1 0 0 ∩ solidSet (fun _ => (1 : ℝ)) = ∅ := by
    ext p
    simp only [Set.mem_inter_iff, Set.mem_empty_iff_false, iff_false, not_and]
    intro hp hs
    have hbox := subCell_subset_unitBox (⟨0, h0⟩ : Fin 1) (⟨0, h0⟩ : Fin 1) hp
    have hx : p.1 < 1 := hbox.1.2
    have hval : 0 ≤ (FitNormal fun _ => (1 : ℝ)).1 * p.1 +
        (FitNormal fun _ => (1 : ℝ)).2 * p.2 + FitOffset (fun _ => (1 : ℝ)) := hs
    rw [FitNormal_const, FitOffset_const_pos 1 one_pos] at hval
    dsimp only at hval
    linarith
  have hL : (mkCell 1 (1 / 3) (1 / 10) 1 (fun _ => (1 : ℝ))).sample_area_multi 0 0 = 1 := by
    show sampleAreaIdx 1 (fun _ => (1 : ℝ)) 0 0 = 1
    unfold sampleAreaIdx
    rw [hfluid, volume_subCell]
    rw [← ENNReal.ofReal_mul (by positivity), ENNReal.toReal_ofReal (by positivity)]
    norm_num
  have hR : (volume (subCell 1 0 0 ∩ solidSet (fun _ => (1 : ℝ)))).toReal = 0 := by
    rw [hsolid, measure_empty, ENNReal.zero_toReal]
  rw [hL, hR]
  norm_num

/-- C1 (amended): for every initialized cell with `edge_sample_num >= 1`, each
per-sub-cell sample area is the volume of that sub-cell lying on the FLUID
side of the fitted hyperplane (`normal . x + offset <= 0`, the complement of
the solid phase of cell.h line 76, matching the header's comment that
`sample_areas_` is the fluid area), and `area()` is the total fluid fraction
of the cell. -/
theorem C1_sample_area_is_fluid_volume (c : Cell) (hn : 1 ≤ c.edge_sample_num) :
    (∀ i j : ℕ, c.sample_area_multi i j =
      (volume (subCell c.edge_sample_num i j ∩ fluidSet c.sdf)).toReal) ∧
    c.area = (volume (unitBox ∩ fluidSet c.sdf)).toReal :=
  ⟨fun _ _ => rfl, totalArea_eq_box c.edge_sample_num hn c.sdf⟩

/-- Witness for C1 (amended) at a concrete initialized cell. -/
theorem C1_sample_area_is_fluid_volume_witness :
    1 ≤ (mkCell 1 (1 / 3) (1 / 10) 1 (fun _ => (1 : ℝ))).edge_sample_num ∧
    ((∀ i j : ℕ, (mkCell 1 (1 / 3) (1 / 10) 1 (fun _ => (1 : ℝ))).sample_area_multi i j =
      (volume (subCell (mkCell 1 (1 / 3) (1 / 10) 1 (fun _ => (1 : ℝ))).edge_sample_num i j ∩
        fluidSet (mkCell 1 (1 / 3) (1 / 10) 1 (fun _ => (1 : ℝ))).sdf)).toReal) ∧
    (mkCell 1 (1 / 3) (1 / 10) 1 (fun _ => (1 : ℝ))).area =
      (volume (unitBox ∩ fluidSet (mkCell 1 (1 / 3) (1 / 10) 1 (fun _ => (1 : ℝ))).sdf)).toReal) :=
  ⟨by norm_num [mkCell],
    C1_sample_area_is_fluid_volume (mkCell 1 (1 / 3) (1 / 10) 1 (fun _ => (1 : ℝ)))
      (by norm_num [mkCell])⟩

lemma fitNorm_pos_of_g1_ne_zero (d : Fin 4 → ℝ) (h : g1 d ≠ 0) : 0 < fitNorm d := by
  have h1 : 0 < g1 d ^ 2 :=
    lt_of_le_of_ne (sq_nonneg _) (Ne.symm (pow_ne_zero 2 h))
  exact Real.sqrt_pos.mpr (by nlinarith [sq_nonneg (g2 d)])

lemma mem_fluidSet_iff (d : Fin 4 → ℝ) (h : fitNorm d ≠ 0) (p : ℝ × ℝ) :
    p ∈ fluidSet d ↔ 0 ≤ g1 d * p.1 + g2 d * p.2 + c0 d := by
  have hpos : 0 < fitNorm d := lt_of_le_of_ne (Real.sqrt_nonneg _) (Ne.symm h)
  unfold fluidSet FitNormal FitOffset
  rw [if_neg h, if_neg h]
  simp only [Set.mem_setOf_eq]
  have key : -(g1 d) / fitNorm d * p.1 + -(g2 d) / fitNorm d * p.2 + -(c0 d) / fitNorm d
      = -(g1 d * p.1 + g2 d * p.2 + c0 d) / fitNorm d := by ring
  rw [key]
  constructor
  · intro hle
    by_contra hc
    push_neg at hc
    have : 0 < -(g1 d * p.1 + g2 d * p.2 + c0 d) / fitNorm d :=
      div_pos (by linarith) hpos
    linarith
  · intro hge
    rw [div_nonpos_iff]
    right
    exact ⟨by linarith, le_of_lt hpos⟩

/-- The concrete corner values of the fitted line x + y = 8/5: the corner
values of the affine function x + y - 8/5 in corner order
(0,0), (1,0), (0,1), (1,1). -/
noncomputable def dC8 : Fin 4 → ℝ := ![-8 / 5, -3 / 5, -3 / 5, 2 / 5]

/-- `dC8` with corner 0's signed-distance value increased by 1/10. -/
noncomputable def dC8' : Fin 4 → ℝ := ![-3 / 2, -3 / 5, -3 / 5, 2 / 5]

lemma g1_dC8 : g1 dC8 = 1 := by
  norm_num [g1, dC8, Matrix.cons_val_zero, Matrix.cons_val_one,
    Matrix.cons_val_two, Matrix.cons_val_three, Matrix.head_cons,
    Matrix.vecHead, Matrix.vecTail, Matrix.tail_cons]

lemma g2_dC8 : g2 dC8 = 1 := by
  norm_num [g2, dC8, Matrix.cons_val_zero, Matrix.cons_val_one,
    Matrix.cons_val_two, Matrix.cons_val_three, Matrix.head_cons,
    Matrix.vecHead, Matrix.vecTail, Matrix.tail_cons]

lemma c0_dC8 : c0 dC8 = -8 / 5 := by
  norm_num [c0, g1, g2, dC8, Matrix.cons_val_zero, Matrix.cons_val_one,
    Matrix.cons_val_two, Matrix.cons_val_three, Matrix.head_cons,
    Matrix.vecHead, Matrix.vecTail, Matrix.tail_cons]

lemma g1_dC8' : g1 dC8' = 19 / 20 := by
  norm_num [g1, dC8', Matrix.cons_val_zero, Matrix.cons_val_one,
    Matrix.cons_val_two, Matrix.cons_val_three, Matrix.head_cons,
    Matrix.vecHead, Matrix.vecTail, Matrix.tail_cons]

lemma g2_dC8' : g2 dC8' = 19 / 20 := by
  norm_num [g2, dC8', Matrix.cons_val_zero, Matrix.cons_val_one,
    Matrix.cons_val_two, Matrix.cons_val_three, Matrix.head_cons,
    Matrix.vecHead, Matrix.vecTail, Matrix.tail_cons]

lemma c0_dC8' : c0 dC8' = -61 / 40 := by
  norm_num [c0, g1, g2, dC8', Matrix.cons_val_zero, Matrix.cons_val_one,
    Matrix.cons_val_two, Matrix.cons_val_three, Matrix.head_cons,
    Matrix.vecHead, Matrix.vecTail, Matrix.tail_cons]

lemma fitNorm_dC8_ne_zero : fitNorm dC8 ≠ 0 :=
  (fitNorm_pos_of_g1_ne_zero dC8 (by rw [g1_dC8]; norm_num)).ne'

lemma fitNorm_dC8'_ne_zero : fitNorm dC8' ≠ 0 :=
  (fitNorm_pos_of_g1_ne_zero dC8' (by rw [g1_dC8']; norm_num)).ne'

lemma subCell_one_eq : subCell 1 0 0 = Set.Ico (0 : ℝ) 1 ×ˢ Set.Ico (0 : ℝ) 1 := by
  unfold subCell
  norm_num

/-- C8 is corrected: at the concrete non-degenerate input `dC8` (the fitted
boundary is the line x + y = 8/5, cutting the cell interior), increasing
corner 0's signed-distance value by 1/10 strictly DECREASES the total area:
the least-squares fit tilts the hyperplane about a pivot, and the area lost
beyond the pivot exceeds the area gained. -/
theorem C8_counterexample :
    Function.update dC8 0 (dC8 0 + 1 / 10) = dC8' ∧
    fitNorm dC8 ≠ 0 ∧ fitNorm dC8' ≠ 0 ∧
    totalArea 1 dC8' < totalArea 1 dC8 := by
  refine ⟨?_, fitNorm_dC8_ne_zero, fitNorm_dC8'_ne_zero, ?_⟩
  · funext k
    fin_cases k <;> norm_num [Function.update, dC8, dC8'] <;> decide
  · have hflA : ∀ p : ℝ × ℝ, p ∈ fluidSet dC8 ↔ 0 ≤ p.1 + p.2 - 8 / 5 := by
      intro p
      rw [mem_fluidSet_iff dC8 fitNorm_dC8_ne_zero p, g1_dC8, g2_dC8, c0_dC8]
      constructor <;> intro h <;> linarith
    have hflA' : ∀ p : ℝ × ℝ,
        p ∈ fluidSet dC8' ↔ 0 ≤ 19 / 20 * p.1 + 19 / 20 * p.2 - 61 / 40 := by
      intro p
      rw [mem_fluidSet_iff dC8' fitNorm_dC8'_ne_zero p, g1_dC8', g2_dC8', c0_dC8']
      constructor <;> intro h <;> linarith
    have hBmeas : MeasurableSet
        (Set.Ico (4 / 5 : ℝ) (4 / 5 + 1 / 400) ×ˢ Set.Ico (4 / 5 : ℝ) (4 / 5 + 1 / 400)) :=
      measurableSet_Ico.prod measurableSet_Ico
    have hBsub : Set.Ico (4 / 5 : ℝ) (4 / 5 + 1 / 400) ×ˢ
        Set.Ico (4 / 5 : ℝ) (4 / 5 + 1 / 400) ⊆ subCell 1 0 0 ∩ fluidSet dC8 := by
      rintro ⟨x, y⟩ ⟨⟨hx1, hx2⟩, hy1, hy2⟩
      refine ⟨?_, (hflA (x, y)).mpr (by dsimp only; linarith)⟩
      rw [subCell_one_eq]
      exact ⟨⟨by linarith, by linarith⟩, by linarith, by linarith⟩
    have hA'sub : subCell 1 0 0 ∩ fluidSet dC8' ⊆ subCell 1 0 0 ∩ fluidSet dC8 := by
      rintro ⟨x, y⟩ ⟨hsub, hfl⟩
      have h1 := (hflA' (x, y)).mp hfl
      dsimp only at h1
      exact ⟨hsub, (hflA (x, y)).mpr (by dsimp only; linarith)⟩
    have hdisj : Disjoint (subCell 1 0 0 ∩ fluidSet dC8')
        (Set.Ico (4 / 5 : ℝ) (4 / 5 + 1 / 400) ×ˢ Set.Ico (4 / 5 : ℝ) (4 / 5 + 1 / 400)) := by
      rw [Set.disjoint_left]
      rintro ⟨x, y⟩ ⟨_, hfl⟩ ⟨⟨hx1, hx2⟩, hy1, hy2⟩
      have h1 := (hflA' (x, y)).mp hfl
      dsimp only at h1
      linarith
    have hunion : volume (subCell 1 0 0 ∩ fluidSet dC8') +
        volume (Set.Ico (4 / 5 : ℝ) (4 / 5 + 1 / 400) ×ˢ
          Set.Ico (4 / 5 : ℝ) (4 / 5 + 1 / 400)) ≤
        volume (subCell 1 0 0 ∩ fluidSet dC8) := by
      rw [← measure_union hdisj hBmeas]
      exact measure_mono (Set.union_subset hA'sub hBsub)
    have hBvol : volume (Set.Ico (4 / 5 : ℝ) (4 / 5 + 1 / 400) ×ˢ
        Set.Ico (4 / 5 : ℝ) (4 / 5 + 1 / 400)) = ENNReal.ofReal (1 / 160000) := by
      rw [Measure.volume_eq_prod, Measure.prod_prod, Real.volume_Ico,
        ← ENNReal.ofReal_mul (by norm_num)]
      norm_num
    have hAne : volume (subCell 1 0 0 ∩ fluidSet dC8) ≠ ⊤ :=
      volume_subCell_inter_ne_top 1 0 0 _
    have hA'ne : volume (subCell 1 0 0 ∩ fluidSet dC8') ≠ ⊤ :=
      volume_subCell_inter_ne_top 1 0 0 _
    have hBne : volume (Set.Ico (4 / 5 : ℝ) (4 / 5 + 1 / 400) ×ˢ
        Set.Ico (4 / 5 : ℝ) (4 / 5 + 1 / 400)) ≠ ⊤ := by
      rw [hBvol]
      exact ENNReal.ofReal_ne_top
    have hkey := ENNReal.toReal_mono hAne hunion
    rw [ENNReal.toReal_add hA'ne hBne, hBvol,
      ENNReal.toReal_ofReal (by norm_num)] at hkey
    have hta : totalArea 1 dC8 = (volume (subCell 1 0 0 ∩ fluidSet dC8)).toReal := by
      unfold totalArea
      rw [Fin.sum_univ_one, Fin.sum_univ_one]
      rfl
    have hta' : totalArea 1 dC8' = (volume (subCell 1 0 0 ∩ fluidSet dC8')).toReal := by
      unfold totalArea
      rw [Fin.sum_univ_one, Fin.sum_univ_one]
      rfl
    rw [hta, hta']
    linarith

/-- C8 (amended): increasing a single corner's signed-distance value can
strictly decrease `area()` even away from degenerate fit configurations
(see the counterexample); what does hold is that increasing ALL corner
signed-distance values by one common nonnegative amount never decreases
`area()`: the fitted half-space grows monotonically under a uniform shift. -/
theorem C8_amended_uniform_shift_monotone (n : ℕ) (d : Fin 4 → ℝ) (ε : ℝ)
    (hε : 0 ≤ ε) : totalArea n d ≤ totalArea n (fun k => d k + ε) := by
  unfold totalArea
  refine Finset.sum_le_sum fun i _ => Finset.sum_le_sum fun j _ => ?_
  unfold sampleAreaIdx
  refine ENNReal.toReal_mono (volume_subCell_inter_ne_top n i.val j.val _)
    (measure_mono ?_)
  have hg1 : g1 (fun k => d k + ε) = g1 d := by unfold g1; ring
  have hg2 : g2 (fun k => d k + ε) = g2 d := by unfold g2; ring
  have hfn : fitNorm (fun k => d k + ε) = fitNorm d := by unfold fitNorm; rw [hg1, hg2]
  have hc0 : c0 (fun k => d k + ε) = c0 d + ε := by unfold c0 g1 g2; ring
  rintro p ⟨hpsub, hpfl⟩
  refine ⟨hpsub, ?_⟩
  have hbox := subCell_subset_unitBox i j hpsub
  by_cases hdeg : fitNorm d = 0
  · have hdeg' : fitNorm (fun k => d k + ε) = 0 := by rw [hfn]; exact hdeg
    by_cases hsign : 0 ≤ -(c0 d)
    · exfalso
      have hx : 0 ≤ p.1 := hbox.1.1
      have hval : (FitNormal d).1 * p.1 + (FitNormal d).2 * p.2 + FitOffset d ≤ 0 := hpfl
      rw [FitNormal, FitOffset, if_pos hdeg, if_pos hdeg, if_pos hsign] at hval
      dsimp only at hval
      linarith
    · have hsign' : ¬(0 ≤ -(c0 fun k => d k + ε)) := by
        rw [hc0]
        push_neg at hsign ⊢
        linarith
      show p ∈ fluidSet fun k => d k + ε
      unfold fluidSet
      simp only [Set.mem_setOf_eq]
      rw [FitNormal, FitOffset, if_pos hdeg', if_pos hdeg', if_neg hsign']
      dsimp only
      have hx : p.1 < 1 := hbox.1.2
      linarith
  · have hdeg' : fitNorm (fun k => d k + ε) ≠ 0 := by rw [hfn]; exact hdeg
    rw [mem_fluidSet_iff _ hdeg', hg1, hg2, hc0]
    have hmem := (mem_fluidSet_iff d hdeg p).mp hpfl
    linarith

/-- Witness for the amended C8 at a concrete cell and shift. -/
theorem C8_amended_uniform_shift_monotone_witness :
    (0 : ℝ) ≤ 1 ∧ totalArea 1 (fun _ => (0 : ℝ)) ≤
      totalArea 1 (fun k => (fun _ => (0 : ℝ)) k + 1) :=
  ⟨by norm_num, C8_amended_uniform_shift_monotone 1 (fun _ => (0 : ℝ)) 1 (by norm_num)⟩

/-- C5: for every corner signed-distance input, the normal produced by the
boundary fit has unit Euclidean norm, including in the degenerate case where
the fitted gradient vanishes (in particular when all corner values are
equal); in the real-number model the norm is exactly 1. -/
theorem C5_fit_normal_unit_norm (d : Fin 4 → ℝ) :
    Real.sqrt ((FitNormal d).1 ^ 2 + (FitNormal d).2 ^ 2) = 1 := by
  unfold FitNormal
  split
  · norm_num
  · have hnn : (0 : ℝ) ≤ g1 d ^ 2 + g2 d ^ 2 := by positivity
    have hsq : fitNorm d ^ 2 = g1 d ^ 2 + g2 d ^ 2 := Real.sq_sqrt hnn
    have hne : fitNorm d ≠ 0 := by assumption
    have : (-(g1 d) / fitNorm d) ^ 2 + (-(g2 d) / fitNorm d) ^ 2 = 1 := by
      field_simp
      linarith [hsq]
    rw [this, Real.sqrt_one]

/-- C3: for every cell with `threshold < 1/2`, the three classification
predicates are characterized by `area <= threshold`, `area >= 1 - threshold`
and "neither", and exactly one of them holds. -/
theorem C3_classification_trichotomy (c : Cell) (h : c.threshold < 1 / 2) :
    (c.IsSolidCell ↔ c.area ≤ c.threshold) ∧
    (c.IsFluidCell ↔ 1 - c.threshold ≤ c.area) ∧
    ((c.IsSolidCell ∧ ¬c.IsFluidCell ∧ ¬c.IsMixedCell) ∨
      (c.IsFluidCell ∧ ¬c.IsSolidCell ∧ ¬c.IsMixedCell) ∨
      (c.IsMixedCell ∧ ¬c.IsSolidCell ∧ ¬c.IsFluidCell)) := by
  unfold Cell.IsSolidCell Cell.IsFluidCell Cell.IsMixedCell
  refine ⟨Iff.rfl, Iff.rfl, ?_⟩
  by_cases hS : c.area ≤ c.threshold
  · left
    have hF : ¬(1 - c.threshold ≤ c.area) := by intro hF; linarith
    exact ⟨hS, hF, fun hm => hm.1 hS⟩
  · by_cases hF : 1 - c.threshold ≤ c.area
    · right; left
      exact ⟨hF, hS, fun hm => hm.2 hF⟩
    · right; right
      exact ⟨⟨hS, hF⟩, hS, hF⟩

/-- Witness for C3 at a concrete initialized cell. -/
theorem C3_classification_trichotomy_witness :
    (mkCell 1 (1 / 3) (1 / 10) 2 (fun _ => 1)).threshold < 1 / 2 ∧
    (((mkCell 1 (1 / 3) (1 / 10) 2 (fun _ => 1)).IsSolidCell ↔
        (mkCell 1 (1 / 3) (1 / 10) 2 (fun _ => 1)).area ≤
          (mkCell 1 (1 / 3) (1 / 10) 2 (fun _ => 1)).threshold) ∧
      ((mkCell 1 (1 / 3) (1 / 10) 2 (fun _ => 1)).IsFluidCell ↔
        1 - (mkCell 1 (1 / 3) (1 / 10) 2 (fun _ => 1)).threshold ≤
          (mkCell 1 (1 / 3) (1 / 10) 2 (fun _ => 1)).area) ∧
      (((mkCell 1 (1 / 3) (1 / 10) 2 (fun _ => 1)).IsSolidCell ∧
          ¬(mkCell 1 (1 / 3) (1 / 10) 2 (fun _ => 1)).IsFluidCell ∧
          ¬(mkCell 1 (1 / 3) (1 / 10) 2 (fun _ => 1)).IsMixedCell) ∨
        ((mkCell 1 (1 / 3) (1 / 10) 2 (fun _ => 1)).IsFluidCell ∧
          ¬(mkCell 1 (1 / 3) (1 / 10) 2 (fun _ => 1)).IsSolidCell ∧
          ¬(mkCell 1 (1 / 3) (1 / 10) 2 (fun _ => 1)).IsMixedCell) ∨
        ((mkCell 1 (1 / 3) (1 / 10) 2 (fun _ => 1)).IsMixedCell ∧
          ¬(mkCell 1 (1 / 3) (1 / 10) 2 (fun _ => 1)).IsSolidCell ∧
          ¬(mkCell 1 (1 / 3) (1 / 10) 2 (fun _ => 1)).IsFluidCell))) :=
  ⟨by norm_num [mkCell], C3_classification_trichotomy _ (by norm_num [mkCell])⟩

/-- C7: `Initialize` fails with `InvalidArgument` whenever `sdf_at_corners`
does not have exactly `2^dim = 4` entries (returning an error value that
carries no cell state), and succeeds on every well-formed input
(correct length and positive `edge_sample_num`). -/
theorem C7_initialize_validation (E nu threshold : ℝ) (esn : ℤ) (l : List ℝ) :
    (l.length ≠ 4 →
      Initialize E nu threshold esn l = .error .invalidArgument) ∧
    (l.length = 4 → 1 ≤ esn →
      ∃ c : Cell, Initialize E nu threshold esn l = .ok c) := by
  constructor
  · intro h
    unfold Initialize
    rw [if_pos h]
  · intro h hesn
    refine ⟨mkCell E nu threshold esn.toNat (listToSdf l), ?_⟩
    unfold Initialize
    rw [if_neg (by simp [h]), if_neg (by omega)]

/-- Witness for C7: a three-entry corner list is rejected, a four-entry one
is accepted. -/
theorem C7_initialize_validation_witness :
    Initialize 1 (1 / 3) (1 / 10) 4 [1, 2, 3] = .error .invalidArgument ∧
    ∃ c : Cell, Initialize 1 (1 / 3) (1 / 10) 4 [1, 1, 1, 1] = .ok c :=
  ⟨(C7_initialize_validation 1 (1 / 3) (1 / 10) 4 [1, 2, 3]).1 (by simp),
    (C7_initialize_validation 1 (1 / 3) (1 / 10) 4 [1, 1, 1, 1]).2 (by simp)
      (by norm_num)⟩

/-- The corner owning flattened velocity degree of freedom `I` (corner-major
flattening of the 2 x 4 corner-velocity matrix into the 8-vector `u`). -/
def cornerOf (I : Fin 8) : Fin 4 := ⟨I.val / 2, by have := I.isLt; omega⟩

/-- The velocity component of flattened degree of freedom `I`. -/
def compOf (I : Fin 8) : Fin 2 := ⟨I.val % 2, Nat.mod_lt _ (by norm_num)⟩

/-- Component selector for a pair. -/
def pairGet (v : ℝ × ℝ) : Fin 2 → ℝ := ![v.1, v.2]

/-- The standard bilinear shape functions of the unit cell, one per corner
(spec 4.3: standard bilinear interpolation in 2D). -/
noncomputable def shapeN : Fin 4 → ℝ × ℝ → ℝ := fun k p =>
  ![(1 - p.1) * (1 - p.2), p.1 * (1 - p.2), (1 - p.1) * p.2, p.1 * p.2] k

/-- Spatial gradients of the bilinear shape functions. -/
noncomputable def gradN : Fin 4 → ℝ × ℝ → ℝ × ℝ := fun k p =>
  ![(-(1 - p.2), -(1 - p.1)), (1 - p.2, -p.1), (-p.2, 1 - p.1), (p.2, p.1)] k

/-- Deformation gradient contributed by a unit value of flattened velocity
degree of freedom `I`, evaluated at point `p` (cell.h line 59,
`VelocityToDeformationGradient`): row `compOf I` holds the shape-function
gradient of corner `cornerOf I`, all other entries vanish. -/
noncomputable def defGrad (I : Fin 8) (p : ℝ × ℝ) : Fin 2 → Fin 2 → ℝ :=
  fun a b => if a = compOf I then pairGet (gradN (cornerOf I) p) b else 0

/-- Symmetrized strain of degree of freedom `I` at point `p`. -/
noncomputable def strain (I : Fin 8) (p : ℝ × ℝ) : Fin 2 → Fin 2 → ℝ :=
  fun a b => (defGrad I p a b + defGrad I p b a) / 2

/-- Trace of the deformation gradient of degree of freedom `I` at `p`. -/
noncomputable def trDefGrad (I : Fin 8) (p : ℝ × ℝ) : ℝ :=
  defGrad I p 0 0 + defGrad I p 1 1

/-- The representative (center) point of sub-cell `(i, j)` (cell.h line 80:
samples are placed at the center of each subcell). -/
noncomputable def pCenter (n i j : ℕ) : ℝ × ℝ :=
  (((i : ℝ) + 1 / 2) / n, ((j : ℝ) + 1 / 2) / n)

/-- Modelled from the spec (4.3, `ComputeEnergyMatrix` body absent from src):
the negated-stiffness quadratic form over the 8 flattened per-corner velocity
degrees of freedom.  Each sub-cell contributes a one-point quadrature term at
its center, weighted by its computed sample area, of the linear elastic
energy density `2 mu <strain_I, strain_J> + la tr_I tr_J` built from the
Lame parameters; the stored matrix is the negation of the assembled
stiffness (cell.h lines 92-95). -/
noncomputable def energyMatrix (la mu : ℝ) (n : ℕ) (d : Fin 4 → ℝ) :
    Fin 8 → Fin 8 → ℝ := fun I J =>
  -∑ i : Fin n, ∑ j : Fin n, sampleAreaIdx n d i j *
    (2 * mu * ∑ a : Fin 2, ∑ b : Fin 2,
        strain I (pCenter n i.val j.val) a b * strain J (pCenter n i.val j.val) a b +
      la * trDefGrad I (pCenter n i.val j.val) * trDefGrad J (pCenter n i.val j.val))

/-- Modelled from the spec (4.4, `ComputeDirichletVector` body absent from
src): one entry per corner shape function, integrating that shape function
over the boundary measure via the per-sub-cell boundary areas and the
sub-cell center evaluation points. -/
noncomputable def dirichletVector (n : ℕ) (d : Fin 4 → ℝ) : Fin 4 → ℝ :=
  fun k => ∑ i : Fin n, ∑ j : Fin n,
    sampleBoundaryAreaIdx n d i.val j.val * shapeN k (pCenter n i.val j.val)

/-- Modelled from the spec (section 3: every output has a companion gradient
object holding its partial derivative with respect to each corner
signed-distance input): `normal_gradients_(:, corner)` (cell.h line 106). -/
noncomputable def normalGradients (d : Fin 4 → ℝ) : Fin 2 → Fin 4 → ℝ :=
  fun a k => deriv (fun t => pairGet (FitNormal (Function.update d k t)) a) (d k)

/-- `offset_gradients_(corner)` (cell.h line 108), as the partial derivative
of the fitted offset. -/
noncomputable def offsetGradients (d : Fin 4 → ℝ) : Fin 4 → ℝ :=
  fun k => deriv (fun t => FitOffset (Function.update d k t)) (d k)

/-- `sample_areas_gradients_(:, corner)` (cell.h line 111). -/
noncomputable def sampleAreasGradients (n : ℕ) (d : Fin 4 → ℝ) : ℕ → Fin 4 → ℝ :=
  fun s k => deriv (fun t => sampleAreaFlat n (Function.update d k t) s) (d k)

/-- `sample_boundary_areas_gradients_(:, corner)` (cell.h line 112). -/
noncomputable def sampleBoundaryAreasGradients (n : ℕ) (d : Fin 4 → ℝ) :
    ℕ → Fin 4 → ℝ :=
  fun s k => deriv (fun t => sampleBoundaryAreaFlat n (Function.update d k t) s) (d k)

/-- `area_gradients_(corner)` (cell.h line 113). -/
noncomputable def areaGradients (n : ℕ) (d : Fin 4 → ℝ) : Fin 4 → ℝ :=
  fun k => deriv (fun t => totalArea n (Function.update d k t)) (d k)

/-- `energy_matrix_gradients_[corner]` (cell.h line 116). -/
noncomputable def energyMatrixGradients (la mu : ℝ) (n : ℕ) (d : Fin 4 → ℝ) :
    Fin 4 → Fin 8 → Fin 8 → ℝ :=
  fun k I J => deriv (fun t => energyMatrix la mu n (Function.update d k t) I J) (d k)

/-- `dirichlet_vector_gradients_(:, corner)` (cell.h line 118). -/
noncomputable def dirichletVectorGradients (n : ℕ) (d : Fin 4 → ℝ) :
    Fin 4 → Fin 4 → ℝ :=
  fun r k => deriv (fun t => dirichletVector n (Function.update d k t) r) (d k)

/-- Accessor `energy_matrix()` (cell.h line 26). -/
noncomputable def Cell.energy_matrix (c : Cell) : Fin 8 → Fin 8 → ℝ :=
  energyMatrix c.la c.mu c.edge_sample_num c.sdf

/-- Accessor `dirichlet_vector()` (cell.h line 27). -/
noncomputable def Cell.dirichlet_vector (c : Cell) : Fin 4 → ℝ :=
  dirichletVector c.edge_sample_num c.sdf

/-- Accessor `normal_gradients()` (cell.h line 29). -/
noncomputable def Cell.normal_gradients (c : Cell) : Fin 2 → Fin 4 → ℝ :=
  normalGradients c.sdf

/-- Accessor `offset_gradients()` (cell.h line 30). -/
noncomputable def Cell.offset_gradients (c : Cell) : Fin 4 → ℝ :=
  offsetGradients c.sdf

/-- Accessor `sample_areas_gradients()` (cell.h line 31). -/
noncomputable def Cell.sample_areas_gradients (c : Cell) : ℕ → Fin 4 → ℝ :=
  sampleAreasGradients c.edge_sample_num c.sdf

/-- Accessor `sample_boundary_areas_gradients()` (cell.h line 32). -/
noncomputable def Cell.sample_boundary_areas_gradients (c : Cell) : ℕ → Fin 4 → ℝ :=
  sampleBoundaryAreasGradients c.edge_sample_num c.sdf

/-- Accessor `area_gradients()` (cell.h line 33). -/
noncomputable def Cell.area_gradients (c : Cell) : Fin 4 → ℝ :=
  areaGradients c.edge_sample_num c.sdf

/-- Accessor `energy_matrix_gradients()` (cell.h line 34). -/
noncomputable def Cell.energy_matrix_gradients (c : Cell) : Fin 4 → Fin 8 → Fin 8 → ℝ :=
  energyMatrixGradients c.la c.mu c.edge_sample_num c.sdf

/-- Accessor `dirichlet_vector_gradients()` (cell.h line 35). -/
noncomputable def Cell.dirichlet_vector_gradients (c : Cell) : Fin 4 → Fin 4 → ℝ :=
  dirichletVectorGradients c.edge_sample_num c.sdf

/-- Modelled from the spec (section 6, binding-layer bodies absent from src):
`py_normal_gradient(corner_idx)` (cell.h line 45) flattens corner
`k`'s column of the normal-gradient matrix into a plain container. -/
noncomputable def Cell.py_normal_gradient (c : Cell) (k : Fin 4) : List ℝ :=
  List.ofFn fun a : Fin 2 => c.normal_gradients a k

/-- `py_offset_gradient(corner_idx)` (cell.h line 46). -/
noncomputable def Cell.py_offset_gradient (c : Cell) (k : Fin 4) : ℝ :=
  c.offset_gradients k

/-- `py_sample_areas_gradient(corner_idx)` (cell.h line 47). -/
noncomputable def Cell.py_sample_areas_gradient (c : Cell) (k : Fin 4) : List ℝ :=
  List.ofFn fun s : Fin (c.edge_sample_num * c.edge_sample_num) =>
    c.sample_areas_gradients s.val k

/-- `py_sample_boundary_areas_gradient(corner_idx)` (cell.h line 48). -/
noncomputable def Cell.py_sample_boundary_areas_gradient (c : Cell) (k : Fin 4) :
    List ℝ :=
  List.ofFn fun s : Fin (c.edge_sample_num * c.edge_sample_num) =>
    c.sample_boundary_areas_gradients s.val k

/-- `py_area_gradient(corner_idx)` (cell.h line 49). -/
noncomputable def Cell.py_area_gradient (c : Cell) (k : Fin 4) : ℝ :=
  c.area_gradients k

/-- `py_energy_matrix_gradient(corner_idx)` (cell.h line 50). -/
noncomputable def Cell.py_energy_matrix_gradient (c : Cell) (k : Fin 4) :
    List (List ℝ) :=
  List.ofFn fun I : Fin 8 => List.ofFn fun J : Fin 8 =>
    c.energy_matrix_gradients k I J

/-- `py_dirichlet_vector_gradient(corner_idx)` (cell.h line 51). -/
noncomputable def Cell.py_dirichlet_vector_gradient (c : Cell) (k : Fin 4) : List ℝ :=
  List.ofFn fun r : Fin 4 => c.dirichlet_vector_gradients r k

/-- C6: for every initialized cell, the energy matrix (indexed by the
`dim * 2 ^ dim = 8` flattened per-corner velocity degrees of freedom) is
symmetric: entry `(I, J)` equals entry `(J, I)` for every index pair. -/
theorem C6_energy_matrix_symmetric (c : Cell) (I J : Fin 8) :
    c.energy_matrix I J = c.energy_matrix J I := by
  unfold Cell.energy_matrix energyMatrix
  congr 1
  refine Finset.sum_congr rfl fun i _ => Finset.sum_congr rfl fun j _ => ?_
  have h1 : ∑ a : Fin 2, ∑ b : Fin 2,
      strain I (pCenter c.edge_sample_num i.val j.val) a b *
        strain J (pCenter c.edge_sample_num i.val j.val) a b =
      ∑ a : Fin 2, ∑ b : Fin 2,
      strain J (pCenter c.edge_sample_num i.val j.val) a b *
        strain I (pCenter c.edge_sample_num i.val j.val) a b :=
    Finset.sum_congr rfl fun a _ => Finset.sum_congr rfl fun b _ => mul_comm _ _
  rw [h1]
  ring

lemma getD_ofFn {α : Type} {n : ℕ} (f : Fin n → α) (x : α) (s : Fin n) :
    (List.ofFn f).getD s.val x = f s := by
  have h : s.val < (List.ofFn f).length := by
    rw [List.length_ofFn]
    exact s.isLt
  rw [List.getD_eq_getElem _ _ h]
  simp [List.getElem_ofFn]

/-- C9: for every initialized cell and corner index `k`, each single-corner
binding-layer gradient accessor returns exactly the corner-`k` slice of the
corresponding full gradient structure. -/
theorem C9_py_gradient_accessors_are_slices (c : Cell) (k : Fin 4) :
    (∀ a : Fin 2, (c.py_normal_gradient k).getD a.val 0 = c.normal_gradients a k) ∧
    c.py_offset_gradient k = c.offset_gradients k ∧
    (∀ s : Fin (c.edge_sample_num * c.edge_sample_num),
      (c.py_sample_areas_gradient k).getD s.val 0 = c.sample_areas_gradients s.val k) ∧
    (∀ s : Fin (c.edge_sample_num * c.edge_sample_num),
      (c.py_sample_boundary_areas_gradient k).getD s.val 0 =
        c.sample_boundary_areas_gradients s.val k) ∧
    c.py_area_gradient k = c.area_gradients k ∧
    (∀ I J : Fin 8, ((c.py_energy_matrix_gradient k).getD I.val []).getD J.val 0 =
      c.energy_matrix_gradients k I J) ∧
    (∀ r : Fin 4, (c.py_dirichlet_vector_gradient k).getD r.val 0 =
      c.dirichlet_vector_gradients r k) := by
  refine ⟨fun a => getD_ofFn _ _ a, rfl, fun s => getD_ofFn _ _ s,
    fun s => getD_ofFn _ _ s, rfl, fun I J => ?_, fun r => getD_ofFn _ _ r⟩
  unfold Cell.py_energy_matrix_gradient
  rw [getD_ofFn]
  exact getD_ofFn _ _ J

end DiffStokes
